import Mathlib

/-!
# Raw memory access primitives of `native.c`

A shallow embedding of the fifteen JNI entry points of
`src/main/native/native.c` (allocation, address width, bulk fill and copy,
and the typed loads and stores), followed by the properties of them that the
specification states.

Process memory is a map from byte addresses to bytes.  A `jlong` argument is
an `Int`; the C casts `(void*)`, `(size_t)`, `(int)` and the conversion of a
value to the object representation of its type are written out as explicit
reductions modulo a power of two.  What the C source leaves to the platform
(pointer width, byte order, how a pointer is widened to `jlong`) is a field of
`Platform`.
-/

namespace LargeBuffers

/-! ## Platform -/

/-- Pointer width of the platform the library is compiled for. -/
inductive AddressModel
  | ilp32
  | lp64
deriving DecidableEq

/-- Byte order of multi-byte scalars in memory. -/
inductive ByteOrder
  | little
  | big
deriving DecidableEq

/-- How the compiler converts a pointer to a wider signed integer. The C
standard leaves the result to the implementation. GCC documents that such a
cast "sign-extends if the pointer representation is smaller than the integer
type"; MSVC sign-extends too; Clang zero-extends. -/
inductive PtrWidening
  | signExtend
  | zeroExtend
deriving DecidableEq

/-- What `native.c` takes from the platform it is compiled for. -/
structure Platform where
  model : AddressModel
  order : ByteOrder
  widening : PtrWidening
deriving DecidableEq

/-- The C constant `sizeof(void*)`. -/
def sizeofVoidPtr (pf : Platform) : Nat :=
  match pf.model with
  | .ilp32 => 4
  | .lp64 => 8

/-- The C constant `sizeof(size_t)`: `size_t` has the width of a pointer on
the flat address spaces a JVM runs on. -/
def sizeofSizeT (pf : Platform) : Nat := sizeofVoidPtr pf

/-- Number of addresses of the platform: `2 ^ (8 * sizeof(void*))`. -/
def addressSpace (pf : Platform) : Nat := 2 ^ (8 * sizeofVoidPtr pf)

/-! ## JNI scalar types

`<jni.h>` is not part of the repository; the widths are those of the JNI
typedefs. -/

/-- Modelled from the spec: `<jni.h>` is missing; `jboolean` is the 1-byte
boolean (`unsigned char`). -/
def sizeofJboolean : Nat := 1

/-- Modelled from the spec: `<jni.h>` is missing; `jbyte` is the 1-byte
integer (`signed char`). -/
def sizeofJbyte : Nat := 1

/-- Modelled from the spec: `<jni.h>` is missing; `jshort` is the 2-byte
integer. -/
def sizeofJshort : Nat := 2

/-- Modelled from the spec: `<jni.h>` is missing; `jint` is the 4-byte
integer. -/
def sizeofJint : Nat := 4

/-- Modelled from the spec: `<jni.h>` is missing; `jlong` is the 8-byte
integer. -/
def sizeofJlong : Nat := 8

/-- The C type `int` is four bytes on every platform of `AddressModel`. -/
def sizeofInt : Nat := 4

/-- Bit pattern of an integer in a two's-complement type of `w` bytes: the
conversion of a value to an unsigned type of that width. -/
def toUnsigned (w : Nat) (v : Int) : Nat := (v % 2 ^ (8 * w)).toNat

/-- Value of a `w`-byte bit pattern read as a signed two's-complement
integer. -/
def toSigned (w : Nat) (u : Nat) : Int :=
  if u % 2 ^ (8 * w) < 2 ^ (8 * w - 1) then ((u % 2 ^ (8 * w) : Nat) : Int)
  else ((u % 2 ^ (8 * w) : Nat) : Int) - 2 ^ (8 * w)

/-- Value-range of a signed type of `w` bytes. -/
def Representable (w : Nat) (v : Int) : Prop :=
  -(2 : Int) ^ (8 * w - 1) ≤ v ∧ v < (2 : Int) ^ (8 * w - 1)

/-! ## Memory -/

/-- Process memory: the byte stored at each address. -/
abbrev Mem := Nat → Nat

/-- Read of one `unsigned char`. -/
def readByte (m : Mem) (p : Nat) : Nat := m p % 256

/-- Write of one `unsigned char`. -/
def writeByte (m : Mem) (p : Nat) (b : Nat) : Mem :=
  fun x => if x = p then b % 256 else m x

/-- Significance (as a power of 256) of the byte at offset `i` in the object
representation of a `w`-byte scalar. -/
def bytePlace (pf : Platform) (w i : Nat) : Nat :=
  match pf.order with
  | .little => i
  | .big => w - 1 - i

/-- Assignment `*(T*)p = u` for a scalar type `T` of `w` bytes whose bit
pattern is `u`: the `w` bytes from `p` receive the object representation. -/
def storeScalar (pf : Platform) (w : Nat) (m : Mem) (p : Nat) (u : Nat) : Mem :=
  fun x => if p ≤ x ∧ x < p + w then (u / 256 ^ bytePlace pf w (x - p)) % 256 else m x

/-- Bit pattern assembled from the first `k` bytes of a `w`-byte scalar at
`p`. -/
def gatherBytes (pf : Platform) (w : Nat) (m : Mem) (p : Nat) : Nat → Nat
  | 0 => 0
  | k + 1 => gatherBytes pf w m p k + readByte m (p + k) * 256 ^ bytePlace pf w k

/-- Dereference `*(T*)p` for a scalar type `T` of `w` bytes: its bit
pattern. -/
def loadScalar (pf : Platform) (w : Nat) (m : Mem) (p : Nat) : Nat :=
  gatherBytes pf w m p w

/-! ## The C library -/

/-- The C library's `memset(s, c, n)`: `c` converted to `unsigned char` is
written to each of the first `n` bytes from `s`. -/
def memset (m : Mem) (s : Nat) (c : Int) : Nat → Mem
  | 0 => m
  | n + 1 => memset (writeByte m s (toUnsigned 1 c)) (s + 1) c n

/-- The C library's `memcpy(dest, src, n)` as the forward byte loop
`while (n--) *d++ = *s++`. -/
def memcpy (m : Mem) (dest src : Nat) : Nat → Mem
  | 0 => m
  | n + 1 => memcpy (writeByte m dest (readByte m src)) (dest + 1) (src + 1) n

/-! ## Casts -/

/-- The cast `(void*)pointer` of a `jlong`: the low `sizeof(void*)` bytes. -/
def toPointer (pf : Platform) (pointer : Int) : Nat :=
  toUnsigned (sizeofVoidPtr pf) pointer

/-- The cast `(size_t)size` of a `jlong`. -/
def toSizeT (pf : Platform) (size : Int) : Nat :=
  toUnsigned (sizeofSizeT pf) size

/-- The cast `(int)value`. -/
def toInt (value : Int) : Int := toSigned sizeofInt (toUnsigned sizeofInt value)

/-- The cast `(jlong)p` of a pointer: the pointer's bits read as a signed
integer of pointer width and then widened, or its bits padded with zeros.
On `lp64`, where pointer and `jlong` have the same width, both are the same
reinterpretation of 64 bits. -/
def pointerToJlong (pf : Platform) (p : Nat) : Int :=
  match pf.widening with
  | .signExtend => toSigned (sizeofVoidPtr pf) p
  | .zeroExtend => toSigned sizeofJlong (p % addressSpace pf)

/-- The cast `(jint)n` of a `size_t`. -/
def sizeToJint (n : Nat) : Int := toSigned sizeofJint n

/-! ## The JNI entry points of `native.c`

A function that returns a value returns it together with the memory it
leaves behind; a `void` function returns the memory. `malloc` is the
response of the C library's allocator to a request of the given size. -/

/-- JNI function `doGetAddressSize`: `return (jint)(sizeof(void*));` -/
def doGetAddressSize (pf : Platform) (m : Mem) : Int × Mem :=
  (sizeToJint (sizeofVoidPtr pf), m)

/-- JNI function `doAllocateMemory`: `return (jlong)malloc((size_t)size);` -/
def doAllocateMemory (pf : Platform) (malloc : Nat → Nat) (size : Int) : Int :=
  pointerToJlong pf (malloc (toSizeT pf size))

/-- JNI function `doFreeMemory`: `free((void*)pointer);` acting on the state
of the allocator, of which `free` is the C library's function. -/
def doFreeMemory {Heap : Type} (pf : Platform) (free : Nat → Heap → Heap) (pointer : Int)
    (heap : Heap) : Heap :=
  free (toPointer pf pointer) heap

/-- JNI function `domemset`: `memset((void*)pointer, (int)value, (size_t)size);` -/
def domemset (pf : Platform) (pointer value size : Int) (m : Mem) : Mem :=
  memset m (toPointer pf pointer) (toInt value) (toSizeT pf size)

/-- JNI function `domemcpy`: `memcpy((void*)dst, (void*)src, (size_t)size);` -/
def domemcpy (pf : Platform) (src dst size : Int) (m : Mem) : Mem :=
  memcpy m (toPointer pf dst) (toPointer pf src) (toSizeT pf size)

/-- JNI function `doGetBoolean`: `return *((jboolean*)pointer);` -/
def doGetBoolean (pf : Platform) (pointer : Int) (m : Mem) : Int × Mem :=
  ((loadScalar pf sizeofJboolean m (toPointer pf pointer) : Nat), m)

/-- JNI function `doGetByte`: `return *((jbyte*)pointer);` -/
def doGetByte (pf : Platform) (pointer : Int) (m : Mem) : Int × Mem :=
  (toSigned sizeofJbyte (loadScalar pf sizeofJbyte m (toPointer pf pointer)), m)

/-- JNI function `doGetShort`: `return *((jshort*)pointer);` -/
def doGetShort (pf : Platform) (pointer : Int) (m : Mem) : Int × Mem :=
  (toSigned sizeofJshort (loadScalar pf sizeofJshort m (toPointer pf pointer)), m)

/-- JNI function `doGetInt`: `return *((jint*)pointer);` -/
def doGetInt (pf : Platform) (pointer : Int) (m : Mem) : Int × Mem :=
  (toSigned sizeofJint (loadScalar pf sizeofJint m (toPointer pf pointer)), m)

/-- JNI function `doGetLong`: `return *((jlong*)pointer);` -/
def doGetLong (pf : Platform) (pointer : Int) (m : Mem) : Int × Mem :=
  (toSigned sizeofJlong (loadScalar pf sizeofJlong m (toPointer pf pointer)), m)

/-- JNI function `doPutBoolean`: `*((jboolean*)pointer) = value;` -/
def doPutBoolean (pf : Platform) (pointer value : Int) (m : Mem) : Mem :=
  storeScalar pf sizeofJboolean m (toPointer pf pointer) (toUnsigned sizeofJboolean value)

/-- JNI function `doPutByte`: `*((jbyte*)pointer) = value;` -/
def doPutByte (pf : Platform) (pointer value : Int) (m : Mem) : Mem :=
  storeScalar pf sizeofJbyte m (toPointer pf pointer) (toUnsigned sizeofJbyte value)

/-- JNI function `doPutShort`: `*((jshort*)pointer) = value;` -/
def doPutShort (pf : Platform) (pointer value : Int) (m : Mem) : Mem :=
  storeScalar pf sizeofJshort m (toPointer pf pointer) (toUnsigned sizeofJshort value)

/-- JNI function `doPutInt`: `*((jint*)pointer) = value;` -/
def doPutInt (pf : Platform) (pointer value : Int) (m : Mem) : Mem :=
  storeScalar pf sizeofJint m (toPointer pf pointer) (toUnsigned sizeofJint value)

/-- JNI function `doPutLong`: `*((jlong*)pointer) = value;` -/
def doPutLong (pf : Platform) (pointer value : Int) (m : Mem) : Mem :=
  storeScalar pf sizeofJlong m (toPointer pf pointer) (toUnsigned sizeofJlong value)

/-! ## Test data -/

/-- A 64-bit little-endian platform. -/
def amd64 : Platform := ⟨.lp64, .little, .signExtend⟩

/-- A 32-bit little-endian platform with a sign-extending compiler. -/
def i386 : Platform := ⟨.ilp32, .little, .signExtend⟩

/-- A 32-bit little-endian platform with a zero-extending compiler. -/
def i386zx : Platform := ⟨.ilp32, .little, .zeroExtend⟩

/-- A 64-bit big-endian platform. -/
def s390x : Platform := ⟨.lp64, .big, .signExtend⟩

/-- A memory holding zero everywhere. -/
def zeroMem : Mem := fun _ => 0

/-- A memory with a different byte pattern at neighbouring addresses. -/
def rampMem : Mem := fun x => (7 * x + 3) % 256

/-- The loads and the address-width query: the calls that only observe. -/
inductive Observation
  | addressSize
  | getBoolean (pointer : Int)
  | getByte (pointer : Int)
  | getShort (pointer : Int)
  | getInt (pointer : Int)
  | getLong (pointer : Int)

/-- The JNI call an `Observation` names. -/
def observe (pf : Platform) : Observation → Mem → Int × Mem
  | .addressSize => doGetAddressSize pf
  | .getBoolean pointer => doGetBoolean pf pointer
  | .getByte pointer => doGetByte pf pointer
  | .getShort pointer => doGetShort pf pointer
  | .getInt pointer => doGetInt pf pointer
  | .getLong pointer => doGetLong pf pointer

/-- Memory after a sequence of observing calls, made one after the other. -/
def observeAll (pf : Platform) : List Observation → Mem → Mem
  | [], m => m
  | o :: os, m => observeAll pf os (observe pf o m).2

/-- The low four bytes of a `jlong`, as a `jint`. -/
def lowInt (v : Int) : Int := toSigned sizeofJint (toUnsigned sizeofJlong v % 2 ^ 32)

/-- The high four bytes of a `jlong`, as a `jint`. -/
def highInt (v : Int) : Int := toSigned sizeofJint (toUnsigned sizeofJlong v / 2 ^ 32)

/-- An allocator whose regions start in the upper half of a 32-bit address
space. -/
def upperHalfAllocator : Nat → Nat := fun _ => 0x80000000

/-- An allocator that answers a zero-byte request with the null pointer, as
the C standard allows, and every other request with a region at 4096. -/
def nullOnZeroAllocator : Nat → Nat := fun n => if n = 0 then 0 else 4096

/-- An allocator that has 1024 bytes to give: a larger request fails with
the null pointer. -/
def smallAllocator : Nat → Nat := fun n => if n ≤ 1024 then 4096 else 0

/-! ## Conversions -/

theorem toUnsigned_cast (w : Nat) (v : Int) :
    ((toUnsigned w v : Nat) : Int) = v % 2 ^ (8 * w) := by
  unfold toUnsigned
  exact Int.toNat_of_nonneg (Int.emod_nonneg _ (by positivity))

theorem toUnsigned_lt (w : Nat) (v : Int) : toUnsigned w v < 2 ^ (8 * w) := by
  have h := toUnsigned_cast w v
  have hlt : v % 2 ^ (8 * w) < 2 ^ (8 * w) := Int.emod_lt_of_pos _ (by positivity)
  rw [← h] at hlt
  exact_mod_cast hlt

theorem toUnsigned_of_nonneg (w : Nat) (v : Int) (h0 : 0 ≤ v) (h1 : v < 2 ^ (8 * w)) :
    ((toUnsigned w v : Nat) : Int) = v := by
  rw [toUnsigned_cast, Int.emod_eq_of_lt h0 h1]

theorem toSigned_toUnsigned (w : Nat) (hw : 0 < w) (v : Int) (hv : Representable w v) :
    toSigned w (toUnsigned w v) = v := by
  obtain ⟨hlo, hhi⟩ := hv
  have hpow : (2 : Int) ^ (8 * w) = 2 * 2 ^ (8 * w - 1) := by
    rw [← pow_succ']; congr 1; omega
  have hpos : (0 : Int) < 2 ^ (8 * w - 1) := by positivity
  have hc := toUnsigned_cast w v
  have hlt := toUnsigned_lt w v
  unfold toSigned
  rw [Nat.mod_eq_of_lt hlt]
  have hcond : toUnsigned w v < 2 ^ (8 * w - 1) ↔
      ((toUnsigned w v : Nat) : Int) < 2 ^ (8 * w - 1) := by
    constructor <;> intro h <;> exact_mod_cast h
  by_cases hneg : 0 ≤ v
  · have hmod : v % 2 ^ (8 * w) = v := Int.emod_eq_of_lt hneg (by omega)
    rw [hmod] at hc
    rw [if_pos (hcond.mpr (by omega))]
    exact hc
  · have hmod : v % 2 ^ (8 * w) = v + 2 ^ (8 * w) := by
      rw [← Int.add_emod_self]
      exact Int.emod_eq_of_lt (by omega) (by omega)
    rw [hmod] at hc
    rw [if_neg (fun h => by have := hcond.mp h; omega)]
    omega

theorem toSigned_mod (w : Nat) (u : Nat) : toSigned w (u % 2 ^ (8 * w)) = toSigned w u := by
  unfold toSigned
  rw [Nat.mod_mod]

/-! ## Stores and loads of scalars -/

theorem storeScalar_outside (pf : Platform) (w : Nat) (m : Mem) (p u x : Nat)
    (hx : x < p ∨ p + w ≤ x) : storeScalar pf w m p u x = m x := by
  unfold storeScalar
  rw [if_neg (by omega)]

theorem gatherBytes_congr (pf : Platform) (w : Nat) (m m' : Mem) (p k : Nat)
    (h : ∀ i, i < k → m' (p + i) = m (p + i)) :
    gatherBytes pf w m' p k = gatherBytes pf w m p k := by
  induction k with
  | zero => rfl
  | succ k ih =>
    simp only [gatherBytes, readByte]
    rw [ih (fun i hi => h i (by omega)), h k (by omega)]

theorem loadScalar_congr (pf : Platform) (w : Nat) (m m' : Mem) (p : Nat)
    (h : ∀ i, i < w → m' (p + i) = m (p + i)) :
    loadScalar pf w m' p = loadScalar pf w m p :=
  gatherBytes_congr pf w m m' p w h

theorem loadScalar_storeScalar_disjoint (pf : Platform) (w w2 : Nat) (m : Mem) (p u q : Nat)
    (h : q + w ≤ p ∨ p + w2 ≤ q) :
    loadScalar pf w (storeScalar pf w2 m p u) q = loadScalar pf w m q :=
  loadScalar_congr pf w m _ q (fun i hi => storeScalar_outside pf w2 m p u (q + i) (by omega))

theorem loadScalar_storeScalar (pf : Platform) (w : Nat)
    (hw : w = 1 ∨ w = 2 ∨ w = 4 ∨ w = 8) (m : Mem) (p u : Nat) :
    loadScalar pf w (storeScalar pf w m p u) p = u % 2 ^ (8 * w) := by
  obtain ⟨md, o, wd⟩ := pf
  rcases hw with rfl | rfl | rfl | rfl <;> cases o <;>
    simp [loadScalar, gatherBytes, storeScalar, readByte, bytePlace] <;> omega

/-! ## Pointer arithmetic -/

theorem addressSpace_cast (pf : Platform) :
    ((addressSpace pf : Nat) : Int) = 2 ^ (8 * sizeofVoidPtr pf) := by
  unfold addressSpace; push_cast; rfl

theorem toPointer_lt (pf : Platform) (a : Int) : toPointer pf a < addressSpace pf :=
  toUnsigned_lt _ a

theorem toPointer_add (pf : Platform) (a o : Int) (ho : 0 ≤ o)
    (h : toPointer pf a + o.toNat < addressSpace pf) :
    toPointer pf (a + o) = toPointer pf a + o.toNat := by
  have hc : ((toPointer pf a : Nat) : Int) = a % 2 ^ (8 * sizeofVoidPtr pf) :=
    toUnsigned_cast _ a
  have hs := addressSpace_cast pf
  have hgoal : ((toPointer pf (a + o) : Nat) : Int) = ((toPointer pf a + o.toNat : Nat) : Int) := by
    rw [show ((toPointer pf (a + o) : Nat) : Int) = (a + o) % 2 ^ (8 * sizeofVoidPtr pf) from
      toUnsigned_cast _ (a + o)]
    rw [← Int.emod_add_emod, ← hc]
    push_cast
    rw [Int.toNat_of_nonneg ho]
    apply Int.emod_eq_of_lt
    · omega
    · rw [← hs]; omega
  exact_mod_cast hgoal

theorem toSizeT_of_lt (pf : Platform) (n : Int) (h0 : 0 ≤ n) (h : n.toNat < addressSpace pf) :
    toSizeT pf n = n.toNat := by
  have hs := addressSpace_cast pf
  have hgoal : ((toSizeT pf n : Nat) : Int) = ((n.toNat : Nat) : Int) := by
    rw [show ((toSizeT pf n : Nat) : Int) = n % 2 ^ (8 * sizeofVoidPtr pf) from
      toUnsigned_cast _ n]
    rw [Int.toNat_of_nonneg h0]
    apply Int.emod_eq_of_lt h0
    rw [← hs]; omega
  exact_mod_cast hgoal

/-! ## Fill and copy -/

theorem memset_outside (m : Mem) (s : Nat) (c : Int) (n x : Nat) (hx : x < s ∨ s + n ≤ x) :
    memset m s c n x = m x := by
  induction n generalizing m s with
  | zero => rfl
  | succ n ih =>
    rw [memset, ih _ _ (by omega)]
    unfold writeByte
    rw [if_neg (by omega)]

theorem memset_inside (m : Mem) (s : Nat) (c : Int) (n x : Nat) (h1 : s ≤ x) (h2 : x < s + n) :
    memset m s c n x = toUnsigned 1 c % 256 := by
  induction n generalizing m s with
  | zero => omega
  | succ n ih =>
    rw [memset]
    by_cases hx : x = s
    · rw [memset_outside _ _ _ _ _ (by omega)]
      unfold writeByte
      rw [if_pos hx]
    · exact ih _ _ (by omega) (by omega)

theorem memcpy_outside (m : Mem) (dest src n x : Nat) (hx : x < dest ∨ dest + n ≤ x) :
    memcpy m dest src n x = m x := by
  induction n generalizing m dest src with
  | zero => rfl
  | succ n ih =>
    rw [memcpy, ih _ _ _ (by omega)]
    unfold writeByte
    rw [if_neg (by omega)]

theorem memcpy_inside (m : Mem) (dest src n x : Nat)
    (hdisj : src + n ≤ dest ∨ dest + n ≤ src) (h1 : dest ≤ x) (h2 : x < dest + n) :
    memcpy m dest src n x = readByte m (src + (x - dest)) := by
  induction n generalizing m dest src with
  | zero => omega
  | succ n ih =>
    rw [memcpy]
    by_cases hx : x = dest
    · rw [memcpy_outside _ _ _ _ _ (by omega)]
      unfold writeByte readByte
      rw [if_pos hx, hx, Nat.sub_self, Nat.add_zero, Nat.mod_mod]
    · rw [ih _ _ _ (by omega) (by omega) (by omega)]
      unfold readByte writeByte
      rw [if_neg (by omega)]
      congr 2
      omega

/-! ## Round trip of a store and a load (C1) -/

/-- C1: for each of the five scalar widths, every address `a` and every value
representable in that width (`jboolean` 0..255, the signed ranges of `jbyte`,
`jshort`, `jint`, `jlong`), the store of the value at `a` followed by the load
of the same width at `a` returns exactly that value, sign included. -/
theorem store_load_round_trip (pf : Platform) (m : Mem) (a : Int)
    (vz vb vs vi vl : Int)
    (hz : 0 ≤ vz ∧ vz ≤ 255)
    (hb : -128 ≤ vb ∧ vb ≤ 127)
    (hs : -32768 ≤ vs ∧ vs ≤ 32767)
    (hi : -2147483648 ≤ vi ∧ vi ≤ 2147483647)
    (hl : -9223372036854775808 ≤ vl ∧ vl ≤ 9223372036854775807) :
    (doGetBoolean pf a (doPutBoolean pf a vz m)).1 = vz ∧
    (doGetByte pf a (doPutByte pf a vb m)).1 = vb ∧
    (doGetShort pf a (doPutShort pf a vs m)).1 = vs ∧
    (doGetInt pf a (doPutInt pf a vi m)).1 = vi ∧
    (doGetLong pf a (doPutLong pf a vl m)).1 = vl := by
  refine ⟨?_, ?_, ?_, ?_, ?_⟩
  · show ((loadScalar pf 1 (storeScalar pf 1 m _ (toUnsigned 1 vz)) _ : Nat) : Int) = vz
    rw [loadScalar_storeScalar pf 1 (by decide), Nat.mod_eq_of_lt (toUnsigned_lt 1 vz)]
    exact toUnsigned_of_nonneg 1 vz hz.1 (by norm_num; omega)
  · show toSigned 1 (loadScalar pf 1 (storeScalar pf 1 m _ (toUnsigned 1 vb)) _) = vb
    rw [loadScalar_storeScalar pf 1 (by decide), toSigned_mod]
    exact toSigned_toUnsigned 1 (by decide) vb ⟨by norm_num; omega, by norm_num; omega⟩
  · show toSigned 2 (loadScalar pf 2 (storeScalar pf 2 m _ (toUnsigned 2 vs)) _) = vs
    rw [loadScalar_storeScalar pf 2 (by decide), toSigned_mod]
    exact toSigned_toUnsigned 2 (by decide) vs ⟨by norm_num; omega, by norm_num; omega⟩
  · show toSigned 4 (loadScalar pf 4 (storeScalar pf 4 m _ (toUnsigned 4 vi)) _) = vi
    rw [loadScalar_storeScalar pf 4 (by decide), toSigned_mod]
    exact toSigned_toUnsigned 4 (by decide) vi ⟨by norm_num; omega, by norm_num; omega⟩
  · show toSigned 8 (loadScalar pf 8 (storeScalar pf 8 m _ (toUnsigned 8 vl)) _) = vl
    rw [loadScalar_storeScalar pf 8 (by decide), toSigned_mod]
    exact toSigned_toUnsigned 8 (by decide) vl ⟨by norm_num; omega, by norm_num; omega⟩

/-- Witness of C1 on a 32-bit little-endian platform, at an odd address of a
memory that is not blank, with the boundary values 255, -128 (min), -1,
2147483647 (max) and -9223372036854775808 (min). -/
theorem store_load_round_trip_witness :
    ((0 : Int) ≤ 255 ∧ (255 : Int) ≤ 255) ∧
    ((-128 : Int) ≤ -128 ∧ (-128 : Int) ≤ 127) ∧
    ((-32768 : Int) ≤ -1 ∧ (-1 : Int) ≤ 32767) ∧
    ((-2147483648 : Int) ≤ 2147483647 ∧ (2147483647 : Int) ≤ 2147483647) ∧
    ((-9223372036854775808 : Int) ≤ -9223372036854775808 ∧
      (-9223372036854775808 : Int) ≤ 9223372036854775807) ∧
    (doGetBoolean i386 4097 (doPutBoolean i386 4097 255 rampMem)).1 = 255 ∧
    (doGetByte i386 4097 (doPutByte i386 4097 (-128) rampMem)).1 = -128 ∧
    (doGetShort i386 4097 (doPutShort i386 4097 (-1) rampMem)).1 = -1 ∧
    (doGetInt i386 4097 (doPutInt i386 4097 2147483647 rampMem)).1 = 2147483647 ∧
    (doGetLong i386 4097 (doPutLong i386 4097 (-9223372036854775808) rampMem)).1 =
      -9223372036854775808 :=
  ⟨by decide, by decide, by decide, by decide, by decide,
    store_load_round_trip i386 rampMem 4097 255 (-128) (-1) 2147483647
      (-9223372036854775808) (by decide) (by decide) (by decide) (by decide) (by decide)⟩

/-! ## A store writes exactly its width (C5) -/

/-- C5: for each of the five stores, of width `w` = 1, 1, 2, 4, 8 bytes, every
address `a`, every value `v` and every byte address `x` outside
`[a, a + w)`, the byte at `x` is the same after the store as before it. -/
theorem store_changes_only_its_width (pf : Platform) (m : Mem) (a v : Int) (x : Nat) :
    ((x < toPointer pf a ∨ toPointer pf a + 1 ≤ x) → doPutBoolean pf a v m x = m x) ∧
    ((x < toPointer pf a ∨ toPointer pf a + 1 ≤ x) → doPutByte pf a v m x = m x) ∧
    ((x < toPointer pf a ∨ toPointer pf a + 2 ≤ x) → doPutShort pf a v m x = m x) ∧
    ((x < toPointer pf a ∨ toPointer pf a + 4 ≤ x) → doPutInt pf a v m x = m x) ∧
    ((x < toPointer pf a ∨ toPointer pf a + 8 ≤ x) → doPutLong pf a v m x = m x) :=
  ⟨storeScalar_outside pf 1 m _ _ x, storeScalar_outside pf 1 m _ _ x,
    storeScalar_outside pf 2 m _ _ x, storeScalar_outside pf 4 m _ _ x,
    storeScalar_outside pf 8 m _ _ x⟩

/-- Witness of C5: five stores of -1 at address 4096 of a memory that is not
blank leave the byte just below (4095) and the byte just above the stored
width as they were. -/
theorem store_changes_only_its_width_witness :
    doPutBoolean s390x 4096 1 rampMem 4095 = rampMem 4095 ∧
    doPutByte s390x 4096 (-1) rampMem 4097 = rampMem 4097 ∧
    doPutShort s390x 4096 (-1) rampMem 4098 = rampMem 4098 ∧
    doPutInt s390x 4096 (-1) rampMem 4100 = rampMem 4100 ∧
    doPutLong s390x 4096 (-1) rampMem 4104 = rampMem 4104 :=
  ⟨(store_changes_only_its_width s390x rampMem 4096 1 4095).1 (by decide),
    (store_changes_only_its_width s390x rampMem 4096 (-1) 4097).2.1 (by decide),
    (store_changes_only_its_width s390x rampMem 4096 (-1) 4098).2.2.1 (by decide),
    (store_changes_only_its_width s390x rampMem 4096 (-1) 4100).2.2.2.1 (by decide),
    (store_changes_only_its_width s390x rampMem 4096 (-1) 4104).2.2.2.2 (by decide)⟩

/-! ## Loads leave memory as it is (C8) -/

theorem observe_mem (pf : Platform) (o : Observation) (m : Mem) : (observe pf o m).2 = m := by
  cases o <;> rfl

theorem observeAll_mem (pf : Platform) (os : List Observation) (m : Mem) :
    observeAll pf os m = m := by
  induction os generalizing m with
  | nil => rfl
  | cons o os ih => rw [observeAll, observe_mem, ih]

/-- C8: each of the five loads and `doGetAddressSize` returns the memory it
was given, unchanged; so a load of any width at `a`, repeated after any
sequence of loads and address-width queries (no store, fill or copy in
between), returns the value it returned the first time. -/
theorem loads_leave_memory_unchanged (pf : Platform) (m : Mem) (a : Int)
    (between : List Observation) :
    (doGetBoolean pf a m).2 = m ∧ (doGetByte pf a m).2 = m ∧ (doGetShort pf a m).2 = m ∧
    (doGetInt pf a m).2 = m ∧ (doGetLong pf a m).2 = m ∧ (doGetAddressSize pf m).2 = m ∧
    (doGetBoolean pf a (observeAll pf between (doGetBoolean pf a m).2)).1 =
      (doGetBoolean pf a m).1 ∧
    (doGetByte pf a (observeAll pf between (doGetByte pf a m).2)).1 = (doGetByte pf a m).1 ∧
    (doGetShort pf a (observeAll pf between (doGetShort pf a m).2)).1 =
      (doGetShort pf a m).1 ∧
    (doGetInt pf a (observeAll pf between (doGetInt pf a m).2)).1 = (doGetInt pf a m).1 ∧
    (doGetLong pf a (observeAll pf between (doGetLong pf a m).2)).1 = (doGetLong pf a m).1 := by
  simp only [observeAll_mem]
  exact ⟨rfl, rfl, rfl, rfl, rfl, rfl, rfl, rfl, rfl, rfl, rfl⟩

/-! ## Fill, then load a byte (C2) -/

theorem loadScalar_one (pf : Platform) (m : Mem) (p : Nat) :
    loadScalar pf 1 m p = readByte m p := by
  obtain ⟨md, o, wd⟩ := pf
  cases o <;> simp [loadScalar, gatherBytes, bytePlace]

theorem toInt_of_jbyte (v : Int) (hv : -128 ≤ v ∧ v ≤ 127) : toInt v = v :=
  toSigned_toUnsigned 4 (by decide) v ⟨by norm_num; omega, by norm_num; omega⟩

/-- C2: for every address `a`, every `jbyte` value `v` (negative ones
included), every count `n` that is a `size_t` and whose span `[a, a + n)`
lies in the platform's address space, and every offset `0 ≤ o < n`: after
`domemset(a, v, n)` the byte load `doGetByte(a + o)` returns `v`. -/
theorem fill_then_load_byte (pf : Platform) (m : Mem) (a v n o : Int)
    (hv : -128 ≤ v ∧ v ≤ 127)
    (hn : n < addressSpace pf)
    (ha : (toPointer pf a : Int) + n ≤ addressSpace pf)
    (ho : 0 ≤ o ∧ o < n) :
    (doGetByte pf (a + o) (domemset pf a v n m)).1 = v := by
  have hsz : toSizeT pf n = n.toNat := toSizeT_of_lt pf n (by omega) (by omega)
  have hq : toPointer pf (a + o) = toPointer pf a + o.toNat :=
    toPointer_add pf a o ho.1 (by omega)
  show toSigned 1 (loadScalar pf 1 (memset m _ (toInt v) (toSizeT pf n)) _) = v
  rw [loadScalar_one, hsz, hq, toInt_of_jbyte v hv]
  unfold readByte
  rw [memset_inside _ _ _ _ _ (by omega) (by omega), Nat.mod_mod]
  have h256 : (256 : Nat) = 2 ^ (8 * 1) := by norm_num
  rw [h256, toSigned_mod]
  exact toSigned_toUnsigned 1 (by decide) v ⟨by norm_num; omega, by norm_num; omega⟩

/-- Witness of C2: filling 16 bytes at 4096 with -3 on a 32-bit platform, the
byte load at offset 15 returns -3. -/
theorem fill_then_load_byte_witness :
    ((-128 : Int) ≤ -3 ∧ (-3 : Int) ≤ 127) ∧
    (16 : Int) < addressSpace i386 ∧
    (toPointer i386 4096 : Int) + 16 ≤ addressSpace i386 ∧
    ((0 : Int) ≤ 15 ∧ (15 : Int) < 16) ∧
    (doGetByte i386 (4096 + 15) (domemset i386 4096 (-3) 16 rampMem)).1 = -3 :=
  ⟨by decide, by decide, by decide, by decide,
    fill_then_load_byte i386 rampMem 4096 (-3) 16 15 (by decide) (by decide) (by decide)
      (by decide)⟩

/-! ## Copy, then load (C3) -/

/-- C3: for every source `src`, destination `dst` and count `n` whose spans
`[src, src + n)` and `[dst, dst + n)` lie in the address space and do not
overlap, and every offset `0 ≤ o < n`: after `domemcpy(src, dst, n)` the byte
at `dst + o` is the byte that was at `src + o` before the copy; the first
argument is the source and the second the destination. -/
theorem copy_then_load (pf : Platform) (m : Mem) (src dst n o : Int)
    (hsrc : (toPointer pf src : Int) + n ≤ addressSpace pf)
    (hdst : (toPointer pf dst : Int) + n ≤ addressSpace pf)
    (hdisj : (toPointer pf src : Int) + n ≤ toPointer pf dst ∨
      (toPointer pf dst : Int) + n ≤ toPointer pf src)
    (ho : 0 ≤ o ∧ o < n) :
    readByte (domemcpy pf src dst n m) (toPointer pf (dst + o)) =
      readByte m (toPointer pf (src + o)) ∧
    (doGetByte pf (dst + o) (domemcpy pf src dst n m)).1 = (doGetByte pf (src + o) m).1 := by
  have hps := toPointer_lt pf src
  have hpd := toPointer_lt pf dst
  have hsz : toSizeT pf n = n.toNat := toSizeT_of_lt pf n (by omega) (by omega)
  have hqd : toPointer pf (dst + o) = toPointer pf dst + o.toNat :=
    toPointer_add pf dst o ho.1 (by omega)
  have hqs : toPointer pf (src + o) = toPointer pf src + o.toNat :=
    toPointer_add pf src o ho.1 (by omega)
  have hbyte : readByte (domemcpy pf src dst n m) (toPointer pf (dst + o)) =
      readByte m (toPointer pf (src + o)) := by
    unfold domemcpy
    rw [hsz, hqd, hqs]
    show memcpy m _ _ _ _ % 256 = _
    rw [memcpy_inside _ _ _ _ _ (by omega) (by omega) (by omega)]
    unfold readByte
    rw [Nat.mod_mod, Nat.add_sub_cancel_left]
  refine ⟨hbyte, ?_⟩
  show toSigned 1 (loadScalar pf 1 _ _) = toSigned 1 (loadScalar pf 1 _ _)
  rw [loadScalar_one, loadScalar_one, hbyte]

/-- Witness of C3: copying 16 bytes from 4096 to 8197 on a 64-bit platform,
the byte at 8197 + 5 becomes 38, the byte that was at 4096 + 5 (it was 73
before the copy). -/
theorem copy_then_load_witness :
    (toPointer amd64 4096 : Int) + 16 ≤ addressSpace amd64 ∧
    (toPointer amd64 8197 : Int) + 16 ≤ addressSpace amd64 ∧
    ((toPointer amd64 4096 : Int) + 16 ≤ toPointer amd64 8197 ∨
      (toPointer amd64 8197 : Int) + 16 ≤ toPointer amd64 4096) ∧
    ((0 : Int) ≤ 5 ∧ (5 : Int) < 16) ∧
    readByte rampMem (toPointer amd64 (8197 + 5)) = 73 ∧
    readByte rampMem (toPointer amd64 (4096 + 5)) = 38 ∧
    readByte (domemcpy amd64 4096 8197 16 rampMem) (toPointer amd64 (8197 + 5)) = 38 :=
  ⟨by decide, by decide, by decide, by decide, by decide, by decide,
    (copy_then_load amd64 rampMem 4096 8197 16 5 (by decide) (by decide) (by decide)
      (by decide)).1.trans (by decide)⟩

/-! ## The halves of a long, in host byte order (C7) -/

theorem loadInt_storeLong_first (pf : Platform) (m : Mem) (p u : Nat) (hu : u < 2 ^ 64) :
    loadScalar pf 4 (storeScalar pf 8 m p u) p =
      match pf.order with
      | .little => u % 2 ^ 32
      | .big => u / 2 ^ 32 := by
  obtain ⟨md, o, wd⟩ := pf
  cases o <;>
    simp [loadScalar, gatherBytes, storeScalar, readByte, bytePlace] <;> omega

theorem storeScalar_inside (pf : Platform) (w : Nat) (m : Mem) (p u d : Nat) (hd : d < w) :
    storeScalar pf w m p u (p + d) = u / 256 ^ bytePlace pf w d % 256 := by
  unfold storeScalar
  rw [if_pos (by omega), Nat.add_sub_cancel_left]

theorem loadInt_storeLong_second (pf : Platform) (m : Mem) (p u : Nat) (hu : u < 2 ^ 64) :
    loadScalar pf 4 (storeScalar pf 8 m p u) (p + 4) =
      match pf.order with
      | .little => u / 2 ^ 32
      | .big => u % 2 ^ 32 := by
  have e4 := storeScalar_inside pf 8 m p u 4 (by decide)
  have e5 := storeScalar_inside pf 8 m p u 5 (by decide)
  have e6 := storeScalar_inside pf 8 m p u 6 (by decide)
  have e7 := storeScalar_inside pf 8 m p u 7 (by decide)
  obtain ⟨md, o, wd⟩ := pf
  cases o <;>
    simp [loadScalar, gatherBytes, readByte, bytePlace, Nat.add_assoc, e4, e5, e6, e7] at * <;>
    omega

theorem addressSpace_ge (pf : Platform) : 4294967296 ≤ addressSpace pf := by
  obtain ⟨md, o, wd⟩ := pf
  cases md <;> simp [addressSpace, sizeofVoidPtr]

theorem toPointer_add_mod (pf : Platform) (a : Int) (k : Nat) :
    toPointer pf (a + k) = (toPointer pf a + k) % addressSpace pf := by
  have hc : ((toPointer pf a : Nat) : Int) = a % 2 ^ (8 * sizeofVoidPtr pf) :=
    toUnsigned_cast _ a
  have hs := addressSpace_cast pf
  have hgoal : ((toPointer pf (a + k) : Nat) : Int) =
      (((toPointer pf a + k) % addressSpace pf : Nat) : Int) := by
    rw [show ((toPointer pf (a + k) : Nat) : Int) = (a + k) % 2 ^ (8 * sizeofVoidPtr pf) from
      toUnsigned_cast _ (a + k)]
    rw [← Int.emod_add_emod, ← hc]
    push_cast
    rw [hs]
  exact_mod_cast hgoal

/-- The bit pattern of a `jlong` is its high half followed by its low
half. -/
theorem long_is_its_halves (v : Int) :
    toUnsigned 8 v = toUnsigned 4 (highInt v) * 2 ^ 32 + toUnsigned 4 (lowInt v) := by
  have hu := toUnsigned_lt 8 v
  simp only [highInt, lowInt, sizeofJint, sizeofJlong]
  generalize toUnsigned 8 v = u at *
  simp only [toUnsigned, toSigned]
  norm_num at *
  split_ifs <;> omega

/-- C7: for every address `a` whose 8 bytes lie in the address space and all
values `v`, `w`: after `doPutLong(a, v)` the loads `doGetInt(a)` and
`doGetInt(a + 4)` return the low and the high four bytes of `v` on a
little-endian host, and the high and the low four bytes on a big-endian host;
a later `doPutLong(a + 8, w)` changes neither result. -/
theorem long_halves_in_host_order (pf : Platform) (m : Mem) (a v w : Int)
    (ha : toPointer pf a + 8 ≤ addressSpace pf) :
    (pf.order = .little →
      (doGetInt pf a (doPutLong pf a v m)).1 = lowInt v ∧
      (doGetInt pf (a + 4) (doPutLong pf a v m)).1 = highInt v) ∧
    (pf.order = .big →
      (doGetInt pf a (doPutLong pf a v m)).1 = highInt v ∧
      (doGetInt pf (a + 4) (doPutLong pf a v m)).1 = lowInt v) ∧
    (doGetInt pf a (doPutLong pf (a + 8) w (doPutLong pf a v m))).1 =
      (doGetInt pf a (doPutLong pf a v m)).1 ∧
    (doGetInt pf (a + 4) (doPutLong pf (a + 8) w (doPutLong pf a v m))).1 =
      (doGetInt pf (a + 4) (doPutLong pf a v m)).1 := by
  have hu : toUnsigned 8 v < 2 ^ 64 := toUnsigned_lt 8 v
  have hge := addressSpace_ge pf
  have h4 : toPointer pf (a + 4) = toPointer pf a + 4 := by
    have := toPointer_add_mod pf a 4
    rw [Nat.mod_eq_of_lt (by omega)] at this
    exact_mod_cast this
  have h8 : toPointer pf (a + 8) = (toPointer pf a + 8) % addressSpace pf := by
    have := toPointer_add_mod pf a 8
    exact_mod_cast this
  have hfirst := loadInt_storeLong_first pf m (toPointer pf a) (toUnsigned 8 v) hu
  have hsecond := loadInt_storeLong_second pf m (toPointer pf a) (toUnsigned 8 v) hu
  have hq : toPointer pf (a + 8) = toPointer pf a + 8 ∨
      (toPointer pf (a + 8) = 0 ∧ toPointer pf a + 8 = addressSpace pf) := by
    rw [h8]
    rcases Nat.lt_or_ge (toPointer pf a + 8) (addressSpace pf) with h | h
    · exact Or.inl (Nat.mod_eq_of_lt h)
    · right
      have : toPointer pf a + 8 = addressSpace pf := by omega
      rw [this, Nat.mod_self]
      exact ⟨rfl, rfl⟩
  have hframe : ∀ q, toPointer pf a ≤ q → q + 4 ≤ toPointer pf a + 8 →
      loadScalar pf 4 (storeScalar pf 8 (doPutLong pf a v m) (toPointer pf (a + 8))
        (toUnsigned 8 w)) q = loadScalar pf 4 (doPutLong pf a v m) q :=
    fun q h1 h2 => loadScalar_storeScalar_disjoint pf 4 8 _ _ _ q (by omega)
  refine ⟨?_, ?_, ?_, ?_⟩
  · intro ho
    rw [ho] at hfirst hsecond
    constructor
    · show toSigned 4 (loadScalar pf 4 (storeScalar pf 8 m _ (toUnsigned 8 v)) _) = _
      rw [hfirst]; rfl
    · show toSigned 4 (loadScalar pf 4 (storeScalar pf 8 m _ (toUnsigned 8 v)) _) = _
      rw [h4, hsecond]; rfl
  · intro ho
    rw [ho] at hfirst hsecond
    constructor
    · show toSigned 4 (loadScalar pf 4 (storeScalar pf 8 m _ (toUnsigned 8 v)) _) = _
      rw [hfirst]; rfl
    · show toSigned 4 (loadScalar pf 4 (storeScalar pf 8 m _ (toUnsigned 8 v)) _) = _
      rw [h4, hsecond]; rfl
  · exact congrArg (toSigned 4) (hframe (toPointer pf a) (by omega) (by omega))
  · exact congrArg (toSigned 4) (hframe (toPointer pf (a + 4)) (by omega) (by omega))

/-- Witness of C7, the scenario of the specification: after
`doPutLong(a, 0x0102030405060708)` and `doPutLong(a + 8, -1)` at `a = 4096`,
`doGetInt(a + 4)` returns 0x01020304 on a little-endian host and 0x05060708 on
a big-endian host. -/
theorem long_halves_in_host_order_witness :
    toPointer amd64 4096 + 8 ≤ addressSpace amd64 ∧
    toPointer s390x 4096 + 8 ≤ addressSpace s390x ∧
    (doGetInt amd64 (4096 + 4)
      (doPutLong amd64 (4096 + 8) (-1) (doPutLong amd64 4096 0x0102030405060708 rampMem))).1 =
      0x01020304 ∧
    (doGetInt s390x (4096 + 4)
      (doPutLong s390x (4096 + 8) (-1) (doPutLong s390x 4096 0x0102030405060708 rampMem))).1 =
      0x05060708 :=
  ⟨by decide, by decide,
    ((long_halves_in_host_order amd64 rampMem 4096 0x0102030405060708 (-1)
        (by decide)).2.2.2.trans
      ((long_halves_in_host_order amd64 rampMem 4096 0x0102030405060708 (-1)
        (by decide)).1 rfl).2).trans (by decide),
    ((long_halves_in_host_order s390x rampMem 4096 0x0102030405060708 (-1)
        (by decide)).2.2.2.trans
      ((long_halves_in_host_order s390x rampMem 4096 0x0102030405060708 (-1)
        (by decide)).2.1 rfl).2).trans (by decide)⟩

/-! ## Allocation (C4, C6, C9, C10) -/

theorem pointerToJlong_eq_zero (pf : Platform) (p : Nat) (hp : p < addressSpace pf) :
    pointerToJlong pf p = 0 ↔ p = 0 := by
  obtain ⟨md, o, wd⟩ := pf
  cases md <;> cases wd <;>
    simp only [pointerToJlong, toSigned, addressSpace, sizeofVoidPtr, sizeofJlong] at * <;>
    norm_num at * <;> split_ifs <;> omega

theorem toPointer_pointerToJlong (pf : Platform) (p : Nat) (hp : p < addressSpace pf) :
    toPointer pf (pointerToJlong pf p) = p := by
  obtain ⟨md, o, wd⟩ := pf
  cases md <;> cases wd <;>
    simp only [toPointer, toUnsigned, pointerToJlong, toSigned, addressSpace, sizeofVoidPtr,
      sizeofJlong] at * <;>
    norm_num at * <;> split_ifs <;> omega

/-- C4: when the allocator answers the request with the null pointer,
`doAllocateMemory(size)` returns the sentinel 0; when it answers with a
non-null pointer, the result is not the sentinel and is the address of the
region's start (the cast `(void*)` of the result is that pointer). -/
theorem allocation_failure_is_sentinel (pf : Platform) (malloc : Nat → Nat) (size : Int)
    (hptr : malloc (toSizeT pf size) < addressSpace pf) :
    (malloc (toSizeT pf size) = 0 → doAllocateMemory pf malloc size = 0) ∧
    (malloc (toSizeT pf size) ≠ 0 →
      doAllocateMemory pf malloc size ≠ 0 ∧
      toPointer pf (doAllocateMemory pf malloc size) = malloc (toSizeT pf size)) := by
  unfold doAllocateMemory
  refine ⟨fun h => (pointerToJlong_eq_zero pf _ hptr).mpr h, fun h => ⟨?_, ?_⟩⟩
  · exact fun h0 => h ((pointerToJlong_eq_zero pf _ hptr).mp h0)
  · exact toPointer_pointerToJlong pf _ hptr

/-- Witness of C4: an allocator with 1024 bytes to give answers a request of
16 bytes with the region at 4096 and a request of 2048 bytes with the null
pointer; `doAllocateMemory` returns 4096 and the sentinel 0. -/
theorem allocation_failure_is_sentinel_witness :
    smallAllocator (toSizeT amd64 2048) < addressSpace amd64 ∧
    smallAllocator (toSizeT amd64 16) < addressSpace amd64 ∧
    doAllocateMemory amd64 smallAllocator 2048 = 0 ∧
    doAllocateMemory amd64 smallAllocator 16 ≠ 0 ∧
    toPointer amd64 (doAllocateMemory amd64 smallAllocator 16) = 4096 :=
  ⟨by decide, by decide,
    (allocation_failure_is_sentinel amd64 smallAllocator 2048 (by decide)).1 (by decide),
    ((allocation_failure_is_sentinel amd64 smallAllocator 16 (by decide)).2 (by decide)).1,
    ((allocation_failure_is_sentinel amd64 smallAllocator 16 (by decide)).2
      (by decide)).2.trans (by decide)⟩

theorem toSizeT_cast (pf : Platform) (size : Int) :
    ((toSizeT pf size : Nat) : Int) = size % addressSpace pf := by
  rw [addressSpace_cast]
  exact toUnsigned_cast _ size

/-- C6, as stated, fails on a 32-bit platform whose compiler sign-extends a
pointer converted to `jlong`: the width is 4, the allocator returns the
pointer 0x80000000, `doAllocateMemory` returns -2147483648, and that result
read as an unsigned 64-bit integer is 0xFFFFFFFF80000000, not below
`2 ^ (8 * 4)`. -/
theorem address_width_counterexample :
    upperHalfAllocator (toSizeT i386 16) < addressSpace i386 ∧
    (doGetAddressSize i386 zeroMem).1 = 4 ∧
    doAllocateMemory i386 upperHalfAllocator 16 = -2147483648 ∧
    toUnsigned sizeofJlong (doAllocateMemory i386 upperHalfAllocator 16) =
      0xFFFFFFFF80000000 ∧
    ¬ toUnsigned sizeofJlong (doAllocateMemory i386 upperHalfAllocator 16) <
      2 ^ (8 * (doGetAddressSize i386 zeroMem).1.toNat) := by
  decide

/-- C6, amended: `doGetAddressSize` returns 4 on a 32-bit platform and 8 on a
64-bit platform, never another value; the low bytes, that many, of each
address returned by `doAllocateMemory` are the pointer the allocator
returned; and the address read as an unsigned 64-bit integer is below
`2 ^ (8 * width)` on a 64-bit platform and on a 32-bit platform whose
compiler zero-extends a pointer converted to `jlong`. -/
theorem address_width_consistent (pf : Platform) (m : Mem) (malloc : Nat → Nat) (size : Int)
    (hptr : malloc (toSizeT pf size) < addressSpace pf) :
    ((doGetAddressSize pf m).1 = 4 ∨ (doGetAddressSize pf m).1 = 8) ∧
    (pf.model = .ilp32 → (doGetAddressSize pf m).1 = 4) ∧
    (pf.model = .lp64 → (doGetAddressSize pf m).1 = 8) ∧
    toUnsigned (doGetAddressSize pf m).1.toNat (doAllocateMemory pf malloc size) =
      malloc (toSizeT pf size) ∧
    ((pf.model = .lp64 ∨ pf.widening = .zeroExtend) →
      toUnsigned sizeofJlong (doAllocateMemory pf malloc size) <
        2 ^ (8 * (doGetAddressSize pf m).1.toNat)) := by
  have hw : (doGetAddressSize pf m).1.toNat = sizeofVoidPtr pf := by
    obtain ⟨md, o, wd⟩ := pf
    cases md <;> rfl
  have hback := toPointer_pointerToJlong pf _ hptr
  rw [hw]
  refine ⟨?_, ?_, ?_, hback, ?_⟩
  · obtain ⟨md, o, wd⟩ := pf
    cases md
    · exact Or.inl rfl
    · exact Or.inr rfl
  · obtain ⟨md, o, wd⟩ := pf
    rintro ⟨⟩
    rfl
  · obtain ⟨md, o, wd⟩ := pf
    rintro ⟨⟩
    rfl
  · unfold doAllocateMemory
    generalize malloc (toSizeT pf size) = p at hptr
    obtain ⟨md, o, wd⟩ := pf
    intro h
    have h2 : md = .lp64 ∨ wd = .zeroExtend := h
    clear h hback hw
    rcases h2 with rfl | rfl
    · cases wd <;>
        simp only [toUnsigned, pointerToJlong, toSigned, addressSpace, sizeofVoidPtr,
          sizeofJlong] at * <;>
        norm_num at * <;> split_ifs <;> omega
    · cases md <;>
        simp only [toUnsigned, pointerToJlong, toSigned, addressSpace, sizeofVoidPtr,
          sizeofJlong] at * <;>
        norm_num at * <;> split_ifs <;> omega

/-- Witness of C6 amended: on a 32-bit platform with a zero-extending
compiler, the pointer 0x80000000 comes back as the address 2147483648, below
`2 ^ 32`. -/
theorem address_width_consistent_witness :
    upperHalfAllocator (toSizeT i386zx 16) < addressSpace i386zx ∧
    (doGetAddressSize i386zx zeroMem).1 = 4 ∧
    doAllocateMemory i386zx upperHalfAllocator 16 = 2147483648 ∧
    toUnsigned sizeofJlong (doAllocateMemory i386zx upperHalfAllocator 16) <
      2 ^ (8 * (doGetAddressSize i386zx zeroMem).1.toNat) :=
  ⟨by decide,
    (address_width_consistent i386zx zeroMem upperHalfAllocator 16 (by decide)).2.1 rfl,
    by decide,
    (address_width_consistent i386zx zeroMem upperHalfAllocator 16 (by decide)).2.2.2.2
      (Or.inr rfl)⟩

/-- C9, as stated, fails for an allocator that answers a zero-byte request
with the null pointer, as the C standard allows: `doAllocateMemory(0)`
returns the sentinel 0. -/
theorem zero_size_allocation_counterexample :
    toSizeT amd64 0 = 0 ∧
    nullOnZeroAllocator (toSizeT amd64 0) < addressSpace amd64 ∧
    doAllocateMemory amd64 nullOnZeroAllocator 0 = 0 := by
  decide

/-- C9, amended: `doAllocateMemory(0)` asks the allocator for zero bytes and
returns its answer: an address that is not the sentinel exactly when the
allocator answers with a non-null pointer, and then the address of that
pointer. -/
theorem zero_size_allocation (pf : Platform) (malloc : Nat → Nat)
    (hptr : malloc 0 < addressSpace pf) :
    toSizeT pf 0 = 0 ∧
    doAllocateMemory pf malloc 0 = pointerToJlong pf (malloc 0) ∧
    (doAllocateMemory pf malloc 0 ≠ 0 ↔ malloc 0 ≠ 0) ∧
    toPointer pf (doAllocateMemory pf malloc 0) = malloc 0 := by
  have hz : toSizeT pf 0 = 0 := by
    obtain ⟨md, o, wd⟩ := pf
    cases md <;> rfl
  unfold doAllocateMemory
  rw [hz]
  exact ⟨rfl, rfl, not_congr (pointerToJlong_eq_zero pf _ hptr),
    toPointer_pointerToJlong pf _ hptr⟩

/-- Witness of C9 amended: an allocator that answers every request with a
region at 0x80000000 makes `doAllocateMemory(0)` return that address, not the
sentinel. -/
theorem zero_size_allocation_witness :
    upperHalfAllocator 0 < addressSpace amd64 ∧
    doAllocateMemory amd64 upperHalfAllocator 0 ≠ 0 ∧
    toPointer amd64 (doAllocateMemory amd64 upperHalfAllocator 0) = 0x80000000 :=
  ⟨by decide,
    (zero_size_allocation amd64 upperHalfAllocator (by decide)).2.2.1.mpr (by decide),
    (zero_size_allocation amd64 upperHalfAllocator (by decide)).2.2.2⟩

/-- C10, as stated, fails on a 32-bit platform at `size = 2 ^ 32 + 16`: the
allocator is asked for 16 bytes, and an allocator with 1024 bytes to give
answers with a region. -/
theorem requested_size_counterexample :
    (0 : Int) ≤ 4294967312 ∧
    toSizeT i386 4294967312 = 16 ∧
    ¬ ((toSizeT i386 4294967312 : Nat) : Int) = 4294967312 ∧
    doAllocateMemory i386 smallAllocator 4294967312 = 4096 := by
  decide

/-- C10, amended: for every non-negative 64-bit `size`, `doAllocateMemory`
asks the allocator for `size mod 2 ^ (8 * address-width)` bytes; that is
exactly `size` on a 64-bit platform, and on a 32-bit platform when
`size < 2 ^ 32`, and then the result is the allocator's answer to a request
of `size` bytes. -/
theorem requested_size_passed_through (pf : Platform) (malloc : Nat → Nat) (size : Int)
    (h0 : 0 ≤ size) (hj : size ≤ 9223372036854775807) :
    ((toSizeT pf size : Nat) : Int) = size % addressSpace pf ∧
    doAllocateMemory pf malloc size = pointerToJlong pf (malloc (toSizeT pf size)) ∧
    (pf.model = .lp64 → ((toSizeT pf size : Nat) : Int) = size) ∧
    (size < addressSpace pf →
      ((toSizeT pf size : Nat) : Int) = size ∧
      doAllocateMemory pf malloc size = pointerToJlong pf (malloc size.toNat)) := by
  have hc := toSizeT_cast pf size
  refine ⟨hc, rfl, ?_, ?_⟩
  · intro hm
    rw [hc]
    apply Int.emod_eq_of_lt h0
    obtain ⟨md, o, wd⟩ := pf
    cases hm
    simp only [addressSpace, sizeofVoidPtr]
    norm_num
    omega
  · intro hlt
    have hsz : toSizeT pf size = size.toNat := toSizeT_of_lt pf size h0 (by omega)
    refine ⟨?_, ?_⟩
    · rw [hc]; exact Int.emod_eq_of_lt h0 hlt
    · unfold doAllocateMemory
      rw [hsz]

/-- Witness of C10 amended: on a 64-bit platform `size = 2 ^ 32 + 16` is
passed through unchanged, and an allocator with 1024 bytes to give fails. -/
theorem requested_size_passed_through_witness :
    (0 : Int) ≤ 4294967312 ∧ (4294967312 : Int) ≤ 9223372036854775807 ∧
    ((toSizeT amd64 4294967312 : Nat) : Int) = 4294967312 ∧
    doAllocateMemory amd64 smallAllocator 4294967312 = 0 :=
  ⟨by decide, by decide,
    (requested_size_passed_through amd64 smallAllocator 4294967312 (by decide)
      (by decide)).2.2.1 rfl,
    ((requested_size_passed_through amd64 smallAllocator 4294967312 (by decide)
      (by decide)).2.2.2 (by decide)).2.trans (by decide)⟩

end LargeBuffers
